import Mathlib

/-!
# Verification of the tink-rust keyset/primitive-dispatch subsystem

Shallow embedding of the Rust sources:

* `src/aead/src/subtle/aes_gcm_siv.rs` — the `AesGcmSiv` wrapper around the
  external `aes_gcm_siv` crate;
* `src/tests/src/lib.rs` — the dummy primitives (`DummyMac`, `DummySigner`,
  `DummyVerifier`), `generate_mutations`, and the keyset construction helpers;
* `src/proto/src/codegen/google.crypto.tink.rs` — the protobuf data model
  (`Keyset`, `keyset::Key`, `KeyData`, the status and output-prefix enums)
  together with the prost wire encoding described by its field annotations.

Rust `Vec<u8>`/`&[u8]` values are modelled as `List Nat` (each element a byte
value), `u32` as `Nat` with an explicit `< 2 ^ 32` bound where it matters,
`i32` as `Int` with explicit two's-complement range bounds, and fallible Rust
functions return `Except String` mirroring `Result<_, TinkError>`.
-/

/-- `isize::MAX` on the 64-bit targets tink-rust supports. -/
def isizeMax : Nat := 2 ^ 63 - 1

/-- The only IV size that the implementation supports
(`AES_GCM_SIV_NONCE_SIZE` in `aes_gcm_siv.rs`). -/
def AES_GCM_SIV_NONCE_SIZE : Nat := 12

/-- The only tag size that the implementation supports
(`AES_GCM_SIV_TAG_SIZE` in `aes_gcm_siv.rs`). -/
def AES_GCM_SIV_TAG_SIZE : Nat := 16

/-- Interface-boundary model of a keyed AES-GCM-SIV cipher from the external
`aes_gcm_siv` crate (`Aes128GcmSiv` / `Aes256GcmSiv`): an encrypt and a
decrypt function over (iv, message, aad), each of which may fail.  The
concrete algorithm is an external collaborator of the repository, so it is
kept abstract; the theorems state their assumptions about it explicitly. -/
structure AeadCipher where
  enc : List Nat → List Nat → List Nat → Option (List Nat)
  dec : List Nat → List Nat → List Nat → Option (List Nat)

/-- The two variants held by `AesGcmSiv` (`AesGcmSivVariant` in
`aes_gcm_siv.rs`), each carrying the AES key bytes. -/
inductive AesGcmSivVariant where
  | Aes128 (key : List Nat)
  | Aes256 (key : List Nat)
deriving DecidableEq

/-- `AesGcmSiv::new`: accepts a 16-byte key (AES-128) or a 32-byte key
(AES-256) and rejects every other length, as in `aes_gcm_siv.rs` lines
46–57. -/
def AesGcmSiv.new (key : List Nat) : Except String AesGcmSivVariant :=
  match key.length with
  | 16 => .ok (.Aes128 key)
  | 32 => .ok (.Aes256 key)
  | l => .error s!"AesGcmSiv: invalid AES key size {l} (want 16, 32)"

/-- Rust slice indexing `l[..i]`, which panics when `i > l.len()`;
the panic is modelled as `none`. -/
def sliceTo (l : List Nat) (i : Nat) : Option (List Nat) :=
  if i ≤ l.length then some (l.take i) else none

/-- Rust slice indexing `l[i..]`, which panics when `i > l.len()`;
the panic is modelled as `none`. -/
def sliceFrom (l : List Nat) (i : Nat) : Option (List Nat) :=
  if i ≤ l.length then some (l.drop i) else none

/-- `AesGcmSiv::encrypt` (`aes_gcm_siv.rs` lines 66–84): checks the plaintext
and aad length bounds, invokes the underlying cipher, and prepends the IV.
The random IV drawn by `new_iv` is passed in as an oracle input `iv`. -/
def AesGcmSiv.encrypt (c : AeadCipher) (iv pt aad : List Nat) :
    Except String (List Nat) :=
  if pt.length > isizeMax - AES_GCM_SIV_NONCE_SIZE - AES_GCM_SIV_TAG_SIZE then
    .error "AesGcmSiv: plaintext too long"
  else if aad.length > isizeMax then
    .error "AesGcmSiv: additional-data too long"
  else
    match c.enc iv pt aad with
    | some ct => .ok (iv ++ ct)
    | none => .error "AesGcmSiv: encryption failed"

/-- `AesGcmSiv::decrypt` (`aes_gcm_siv.rs` lines 87–109): checks the length
bounds, splits the input at the nonce boundary (`ct[..12]` / `ct[12..]`,
modelled with the panicking-slice functions so that an out-of-bounds access
would surface as `none`), and invokes the underlying cipher. -/
def AesGcmSiv.decrypt (c : AeadCipher) (ct aad : List Nat) :
    Option (Except String (List Nat)) :=
  if ct.length < AES_GCM_SIV_NONCE_SIZE + AES_GCM_SIV_TAG_SIZE then
    some (.error "AesGcmSiv: ciphertext too short")
  else if ct.length > isizeMax then
    some (.error "AesGcmSiv: ciphertext too long")
  else if aad.length > isizeMax then
    some (.error "AesGcmSiv: additional-data too long")
  else
    match sliceTo ct AES_GCM_SIV_NONCE_SIZE, sliceFrom ct AES_GCM_SIV_NONCE_SIZE with
    | some iv, some msg =>
      match c.dec iv msg aad with
      | some pt => some (.ok pt)
      | none => some (.error "AesGcmSiv: decryption failed")
    | _, _ => none

/-- `DummyMac` (`src/tests/src/lib.rs` lines 164–167); the Rust `String`
field `name` is modelled by its UTF-8 bytes. -/
structure DummyMac where
  name : List Nat
deriving DecidableEq

/-- `DummyMac::compute_mac` (`lib.rs` lines 171–176): the tag is the data
followed by the bytes of the name. -/
def DummyMac.compute_mac (m : DummyMac) (data : List Nat) :
    Except String (List Nat) :=
  .ok (data ++ m.name)

/-- `DummyMac::verify_mac` (`lib.rs` lines 179–181): ignores both arguments
and returns `Ok(())` unconditionally. -/
def DummyMac.verify_mac (_m : DummyMac) (_mac _data : List Nat) :
    Except String Unit :=
  .ok ()

/-- `generate_mutations` (`lib.rs` lines 796–818): all single-bit flips
(position-major, bit-minor), the drops of the first `i` bytes for
`i = 1 .. len-1`, and the input with one extra `0x00` byte. -/
def generate_mutations (src : List Nat) : List (List Nat) :=
  let flips := (List.range src.length).flatMap (fun i =>
    (List.range 8).map (fun j => src.set i (src.getD i 0 ^^^ (1 <<< j))))
  let truncations := (List.range' 1 (src.length - 1)).map (fun i => src.drop i)
  flips ++ truncations ++ [src ++ [0]]

/-- The record serialized by `DummyAead` (`DummyAeadData` in `lib.rs`
lines 87–92); byte vectors as `List Nat`, the Rust `String` name kept as a
Lean `String`. -/
structure DummyAeadData where
  name : String
  plaintext : List Nat
  additional_data : List Nat
deriving DecidableEq

/-- `DummyAead::encrypt` (`lib.rs` lines 95–102), parametrized by the
external `serde_json::to_vec` serializer `ser` (an external collaborator,
kept abstract): it serializes the name, plaintext and additional data. -/
def DummyAead.encrypt (ser : DummyAeadData → List Nat) (name : String)
    (plaintext additional_data : List Nat) : List Nat :=
  ser ⟨name, plaintext, additional_data⟩

/-- `DummyAead::decrypt` (`lib.rs` lines 104–112), parametrized by the
external `serde_json::from_slice` deserializer `deser`: parse, then require
the recorded name and additional data to match.  The error strings are the
source's own (including its misspellings). -/
def DummyAead.decrypt (deser : List Nat → Option DummyAeadData)
    (name : String) (ciphertext additional_data : List Nat) :
    Except String (List Nat) :=
  match deser ciphertext with
  | none => .error "dummy aeaed decrypt: invalid data"
  | some data =>
    if data.name ≠ name ∨ data.additional_data ≠ additional_data then
      .error "dummy aead encrypt: name/additional data mismatch"
    else
      .ok data.plaintext

/-- The name that `DummySigner::new` / `DummyVerifier::new` store in their
inner `DummyAead` (`format!("dummy public key: {}", name)`). -/
def dummySignerName (name : String) : String :=
  "dummy public key: " ++ name

/-- `DummySigner::sign` (`lib.rs` lines 134–136): encrypt an empty plaintext
with the data as additional data. -/
def DummySigner.sign (ser : DummyAeadData → List Nat) (name : String)
    (data : List Nat) : List Nat :=
  DummyAead.encrypt ser (dummySignerName name) [] data

/-- `DummyVerifier::verify` (`lib.rs` lines 158–160): decrypt the signature
with the data as additional data and discard the plaintext. -/
def DummyVerifier.verify (deser : List Nat → Option DummyAeadData)
    (name : String) (sig data : List Nat) : Except String Unit :=
  (DummyAead.decrypt deser (dummySignerName name) sig data).map (fun _ => ())

/-- `KeyStatusType` (`google.crypto.tink.rs` lines 601–609). -/
inductive KeyStatusType where
  | UnknownStatus
  | Enabled
  | Disabled
  | Destroyed
deriving DecidableEq

/-- The `i32` discriminants of `KeyStatusType` (`#[repr(i32)]`). -/
def KeyStatusType.toI32 : KeyStatusType → Int
  | .UnknownStatus => 0
  | .Enabled => 1
  | .Disabled => 2
  | .Destroyed => 3

/-- `OutputPrefixType` (`google.crypto.tink.rs` lines 640–646). -/
inductive OutputPrefixType where
  | UnknownPrefix
  | Tink
  | Legacy
  | Raw
  | Crunchy
deriving DecidableEq

/-- The `i32` discriminants of `OutputPrefixType` (`#[repr(i32)]`). -/
def OutputPrefixType.toI32 : OutputPrefixType → Int
  | .UnknownPrefix => 0
  | .Tink => 1
  | .Legacy => 2
  | .Raw => 3
  | .Crunchy => 4

/-- `KeyData` (`google.crypto.tink.rs` lines 468–483): the Rust `String`
field `type_url` is modelled by its UTF-8 bytes (prost writes exactly those
bytes on the wire). -/
structure KeyData where
  type_url : List Nat
  value : List Nat
  key_material_type : Int
deriving DecidableEq

/-- `keyset::Key` (`google.crypto.tink.rs` lines 540–555). -/
structure Keyset.Key where
  key_data : Option KeyData
  status : Int
  key_id : Nat
  output_prefix_type : Int
deriving DecidableEq

/-- `Keyset` (`google.crypto.tink.rs` lines 527–536). -/
structure Keyset where
  primary_key_id : Nat
  key : List Keyset.Key
deriving DecidableEq

/-- `new_key` (`lib.rs` lines 773–785): build a `keyset::Key`, casting the
enums to their `i32` discriminants. -/
def new_key (key_data : KeyData) (status : KeyStatusType) (key_id : Nat)
    (prefix_type : OutputPrefixType) : Keyset.Key :=
  { key_data := some key_data
    status := status.toI32
    key_id := key_id
    output_prefix_type := prefix_type.toI32 }

/-- `new_keyset` (`lib.rs` lines 788–793). -/
def new_keyset (primary_key_id : Nat) (keys : List Keyset.Key) : Keyset :=
  { primary_key_id := primary_key_id, key := keys }

/-- `new_test_keyset` (`lib.rs` lines 245–285).  The Rust
`key_data_generator` closure is called five times and may return a different
(random) `KeyData` on each call; it is modelled as a function of the call
index `0 .. 4`. -/
def new_test_keyset (key_data_generator : Nat → KeyData)
    (primary_output_prefix_type : OutputPrefixType) : Keyset :=
  let primary_key :=
    new_key (key_data_generator 0) .Enabled 42 primary_output_prefix_type
  let raw_key := new_key (key_data_generator 1) .Enabled 43 .Raw
  let legacy_key := new_key (key_data_generator 2) .Enabled 44 .Legacy
  let tink_key := new_key (key_data_generator 3) .Enabled 45 .Tink
  let crunchy_key := new_key (key_data_generator 4) .Enabled 46 .Crunchy
  let primary_key_id := primary_key.key_id
  let keys := [primary_key, raw_key, legacy_key, tink_key, crunchy_key]
  new_keyset primary_key_id keys

/-- Modelled from the spec: the big-endian 4-byte encoding of a `key_id`
used by the output-prefix protocol of §4.4 (the dispatch-wrapper code that
computes prefixes is not under `src/`). -/
def beBytes4 (kid : Nat) : List Nat :=
  [kid / 2 ^ 24 % 256, kid / 2 ^ 16 % 256, kid / 2 ^ 8 % 256, kid % 256]

/-- Modelled from the spec: the §4.4 output-prefix table.  Raw has an empty
prefix; Tink is `0x01` followed by the big-endian key id; Legacy and
Crunchy are `0x00` followed by the big-endian key id.  The table assigns no
prefix to `UnknownPrefix`. -/
def wirePrefixBytes : OutputPrefixType → Nat → Option (List Nat)
  | .Raw, _ => some []
  | .Tink, kid => some (1 :: beBytes4 kid)
  | .Legacy, kid => some (0 :: beBytes4 kid)
  | .Crunchy, kid => some (0 :: beBytes4 kid)
  | .UnknownPrefix, _ => none

/-- Modelled from the spec: produce-side dispatch of §4.4 — emit
`prefix ++ payload` where `payload` is the underlying primitive's output,
and for Legacy a single `0x00` byte is appended to the data being
authenticated/signed before the underlying operation runs. -/
def produceOutput (prim : List Nat → List Nat) (kind : OutputPrefixType)
    (kid : Nat) (data : List Nat) : Option (List Nat) :=
  match wirePrefixBytes kind kid with
  | none => none
  | some pre =>
    some (pre ++ prim (if kind = .Legacy then data ++ [0] else data))

/-- Protobuf base-128 varint encoding (least-significant group first), as
written by prost for every scalar field and field key. -/
def varintEncode (n : Nat) : List Nat :=
  if n < 128 then [n] else (n % 128 + 128) :: varintEncode (n / 128)
termination_by n
decreasing_by exact Nat.div_lt_self (by omega) (by omega)

/-- Protobuf base-128 varint decoding: returns the value and the remaining
bytes, or `none` on truncated input. -/
def varintDecode : List Nat → Option (Nat × List Nat)
  | [] => none
  | b :: rest =>
    if b < 128 then
      some (b, rest)
    else
      match varintDecode rest with
      | none => none
      | some (v, r) => some (v * 128 + b % 128, r)

/-- A successful varint decode consumes at least one byte. -/
def varintDecode_shrink :
    ∀ (bs : List Nat) (v : Nat) (r : List Nat),
      varintDecode bs = some (v, r) → r.length < bs.length := by
  intro bs
  induction bs with
  | nil => intro v r h; simp [varintDecode] at h
  | cons b rest ih =>
    intro v r h
    simp only [varintDecode] at h
    split at h
    · cases h
      simp
    · cases h2 : varintDecode rest with
      | none => rw [h2] at h; cases h
      | some vr =>
        rw [h2] at h
        cases h
        have := ih vr.1 vr.2 (by rw [h2])
        simp only [List.length_cons]
        omega

/-- prost's `skip_field` for unknown tags, restricted to the wire types that
can appear here (varint, 64-bit, length-delimited, 32-bit); other wire
types are rejected. -/
def skipField (wire : Nat) (bs : List Nat) : Option (List Nat) :=
  if wire = 0 then
    (varintDecode bs).map (fun vr => vr.2)
  else if wire = 1 then
    if 8 ≤ bs.length then some (bs.drop 8) else none
  else if wire = 2 then
    (varintDecode bs).bind (fun vr =>
      if vr.1 ≤ vr.2.length then some (vr.2.drop vr.1) else none)
  else if wire = 5 then
    if 4 ≤ bs.length then some (bs.drop 4) else none
  else
    none

/-- Skipping a field never lengthens the remaining input. -/
def skipField_shrink :
    ∀ (wire : Nat) (bs r : List Nat),
      skipField wire bs = some r → r.length ≤ bs.length := by
  intro wire bs r h
  simp only [skipField] at h
  split at h
  · cases h2 : varintDecode bs with
    | none => rw [h2] at h; cases h
    | some vr =>
      rw [h2] at h
      cases h
      exact le_of_lt (varintDecode_shrink bs vr.1 vr.2 h2)
  · split at h
    · split at h
      · cases h
        simp
      · cases h
    · split at h
      · cases h2 : varintDecode bs with
        | none => rw [h2] at h; cases h
        | some vr =>
          rw [h2] at h
          simp only [Option.some_bind] at h
          split at h
          · cases h
            have := varintDecode_shrink bs vr.1 vr.2 h2
            simp only [List.length_drop]
            omega
          · cases h
      · split at h
        · split at h
          · cases h
            simp
          · cases h
        · cases h

/-- prost's encoding of a `uint32` field: omitted when the value is the
proto3 default `0`, otherwise field key then varint. -/
def natField (tag : Nat) (v : Nat) : List Nat :=
  if v = 0 then [] else varintEncode (tag * 8) ++ varintEncode v

/-- The `u64` that prost writes for an `i32` enum/int32 value
(`value as u64`, i.e. two's-complement sign extension to 64 bits). -/
def i32ToU64 (v : Int) : Nat :=
  (v % 2 ^ 64).toNat

/-- prost's encoding of an `int32`/enum field: omitted when `0`, otherwise
field key then the sign-extended varint. -/
def intField (tag : Nat) (v : Int) : List Nat :=
  if v = 0 then [] else varintEncode (tag * 8) ++ varintEncode (i32ToU64 v)

/-- prost's encoding of a `bytes`/`string` field: omitted when empty,
otherwise field key (wire type 2), length varint, raw bytes. -/
def bytesField (tag : Nat) (bs : List Nat) : List Nat :=
  if bs = [] then [] else varintEncode (tag * 8 + 2) ++ varintEncode bs.length ++ bs

/-- A length-delimited field (wire type 2) that is always emitted: used for
present `message` fields and for each element of a repeated message
field. -/
def lenDelimField (tag : Nat) (payload : List Nat) : List Nat :=
  varintEncode (tag * 8 + 2) ++ varintEncode payload.length ++ payload

/-- prost's decoding of a varint into an `i32` field (`as i32`): truncate
to 32 bits and reinterpret as two's complement. -/
def u64ToI32 (w : Nat) : Int :=
  if w % 2 ^ 32 < 2 ^ 31 then ((w % 2 ^ 32 : Nat) : Int)
  else ((w % 2 ^ 32 : Nat) : Int) - 2 ^ 32

/-- The `#[derive(::prost::Message)]` encoding of `KeyData`:
`type_url` (string, tag 1), `value` (bytes, tag 2),
`key_material_type` (enum, tag 3). -/
def KeyData.protoEncode (kd : KeyData) : List Nat :=
  bytesField 1 kd.type_url ++ bytesField 2 kd.value ++
    intField 3 kd.key_material_type

/-- The `#[derive(::prost::Message)]` encoding of `keyset::Key`:
`key_data` (optional message, tag 1), `status` (enum, tag 2),
`key_id` (uint32, tag 3), `output_prefix_type` (enum, tag 4). -/
def Keyset.Key.protoEncode (k : Keyset.Key) : List Nat :=
  (match k.key_data with
   | none => []
   | some kd => lenDelimField 1 kd.protoEncode) ++
  intField 2 k.status ++ natField 3 k.key_id ++
    intField 4 k.output_prefix_type

/-- The `#[derive(::prost::Message)]` encoding of `Keyset` (what
`proto_encode` in `lib.rs` lines 975–983 produces for a keyset):
`primary_key_id` (uint32, tag 1) then one length-delimited tag-2 field per
entry of `key`. -/
def Keyset.protoEncode (ks : Keyset) : List Nat :=
  natField 1 ks.primary_key_id ++
    (ks.key.map (fun k => lenDelimField 2 k.protoEncode)).flatten

/-- The prost default value of `KeyData`. -/
def defaultKeyData : KeyData :=
  { type_url := [], value := [], key_material_type := 0 }

/-- The prost default value of `keyset::Key`. -/
def defaultKey : Keyset.Key :=
  { key_data := none, status := 0, key_id := 0, output_prefix_type := 0 }

/-- The prost default value of `Keyset`. -/
def defaultKeyset : Keyset :=
  { primary_key_id := 0, key := [] }

/-- prost's field-merge loop for `KeyData`: repeatedly read a field key and
merge the field into the accumulator; unknown tags are skipped, wire-type
mismatches on known tags are errors. -/
def decodeKeyDataLoop (bs : List Nat) (acc : KeyData) : Option KeyData :=
  if bs = [] then some acc
  else
    match _h : varintDecode bs with
    | none => none
    | some (key, rest) =>
      if key / 8 = 1 then
        if key % 8 = 2 then
          match _h2 : varintDecode rest with
          | none => none
          | some (len, rest2) =>
            if len ≤ rest2.length then
              decodeKeyDataLoop (rest2.drop len)
                { acc with type_url := rest2.take len }
            else none
        else none
      else if key / 8 = 2 then
        if key % 8 = 2 then
          match _h2 : varintDecode rest with
          | none => none
          | some (len, rest2) =>
            if len ≤ rest2.length then
              decodeKeyDataLoop (rest2.drop len)
                { acc with value := rest2.take len }
            else none
        else none
      else if key / 8 = 3 then
        if key % 8 = 0 then
          match _h2 : varintDecode rest with
          | none => none
          | some (w, rest2) =>
            decodeKeyDataLoop rest2 { acc with key_material_type := u64ToI32 w }
        else none
      else
        match _h2 : skipField (key % 8) rest with
        | none => none
        | some rest2 => decodeKeyDataLoop rest2 acc
termination_by bs.length
decreasing_by
  · have hr := varintDecode_shrink bs key rest _h
    have hr2 := varintDecode_shrink rest len rest2 _h2
    have h3 : (rest2.drop len).length = rest2.length - len := by simp
    omega
  · have hr := varintDecode_shrink bs key rest _h
    have hr2 := varintDecode_shrink rest len rest2 _h2
    have h3 : (rest2.drop len).length = rest2.length - len := by simp
    omega
  · have hr := varintDecode_shrink bs key rest _h
    have hr2 := varintDecode_shrink rest w rest2 _h2
    omega
  · have hr := varintDecode_shrink bs key rest _h
    have hr2 := skipField_shrink (key % 8) rest rest2 _h2
    omega

/-- Decode a `KeyData` message from its framed bytes, starting from the
prost default (the nested-message merge entry point). -/
def decodeKeyDataMsg (bs : List Nat) : Option KeyData :=
  decodeKeyDataLoop bs defaultKeyData

/-- prost's field-merge loop for `keyset::Key`.  A tag-1 field merges the
nested `KeyData` into the existing value (or the default when absent), as
prost does for optional message fields; tags 2–4 set the scalar fields;
unknown tags are skipped. -/
def decodeKeyLoop (bs : List Nat) (acc : Keyset.Key) : Option Keyset.Key :=
  if bs = [] then some acc
  else
    match _h : varintDecode bs with
    | none => none
    | some (key, rest) =>
      if key / 8 = 1 then
        if key % 8 = 2 then
          match _h2 : varintDecode rest with
          | none => none
          | some (len, rest2) =>
            if len ≤ rest2.length then
              match decodeKeyDataLoop (rest2.take len)
                  (acc.key_data.getD defaultKeyData) with
              | none => none
              | some kd =>
                decodeKeyLoop (rest2.drop len) { acc with key_data := some kd }
            else none
        else none
      else if key / 8 = 2 then
        if key % 8 = 0 then
          match _h2 : varintDecode rest with
          | none => none
          | some (w, rest2) =>
            decodeKeyLoop rest2 { acc with status := u64ToI32 w }
        else none
      else if key / 8 = 3 then
        if key % 8 = 0 then
          match _h2 : varintDecode rest with
          | none => none
          | some (w, rest2) =>
            decodeKeyLoop rest2 { acc with key_id := w % 2 ^ 32 }
        else none
      else if key / 8 = 4 then
        if key % 8 = 0 then
          match _h2 : varintDecode rest with
          | none => none
          | some (w, rest2) =>
            decodeKeyLoop rest2 { acc with output_prefix_type := u64ToI32 w }
        else none
      else
        match _h2 : skipField (key % 8) rest with
        | none => none
        | some rest2 => decodeKeyLoop rest2 acc
termination_by bs.length
decreasing_by
  · have hr := varintDecode_shrink bs key rest _h
    have hr2 := varintDecode_shrink rest len rest2 _h2
    have h3 : (rest2.drop len).length = rest2.length - len := by simp
    omega
  · have hr := varintDecode_shrink bs key rest _h
    have hr2 := varintDecode_shrink rest w rest2 _h2
    omega
  · have hr := varintDecode_shrink bs key rest _h
    have hr2 := varintDecode_shrink rest w rest2 _h2
    omega
  · have hr := varintDecode_shrink bs key rest _h
    have hr2 := varintDecode_shrink rest w rest2 _h2
    omega
  · have hr := varintDecode_shrink bs key rest _h
    have hr2 := skipField_shrink (key % 8) rest rest2 _h2
    omega

/-- Decode a `keyset::Key` message from its framed bytes, starting from the
prost default. -/
def decodeKeyMsg (bs : List Nat) : Option Keyset.Key :=
  decodeKeyLoop bs defaultKey

/-- prost's field-merge loop for `Keyset`: tag 1 sets `primary_key_id`,
each tag-2 field decodes one `keyset::Key` element and appends it to the
repeated field; unknown tags are skipped. -/
def decodeKeysetLoop (bs : List Nat) (acc : Keyset) : Option Keyset :=
  if bs = [] then some acc
  else
    match _h : varintDecode bs with
    | none => none
    | some (key, rest) =>
      if key / 8 = 1 then
        if key % 8 = 0 then
          match _h2 : varintDecode rest with
          | none => none
          | some (w, rest2) =>
            decodeKeysetLoop rest2 { acc with primary_key_id := w % 2 ^ 32 }
        else none
      else if key / 8 = 2 then
        if key % 8 = 2 then
          match _h2 : varintDecode rest with
          | none => none
          | some (len, rest2) =>
            if len ≤ rest2.length then
              match decodeKeyMsg (rest2.take len) with
              | none => none
              | some k =>
                decodeKeysetLoop (rest2.drop len)
                  { acc with key := acc.key ++ [k] }
            else none
        else none
      else
        match _h2 : skipField (key % 8) rest with
        | none => none
        | some rest2 => decodeKeysetLoop rest2 acc
termination_by bs.length
decreasing_by
  · have hr := varintDecode_shrink bs key rest _h
    have hr2 := varintDecode_shrink rest w rest2 _h2
    omega
  · have hr := varintDecode_shrink bs key rest _h
    have hr2 := varintDecode_shrink rest len rest2 _h2
    have h3 : (rest2.drop len).length = rest2.length - len := by simp
    omega
  · have hr := varintDecode_shrink bs key rest _h
    have hr2 := skipField_shrink (key % 8) rest rest2 _h2
    omega

/-- Decode a `Keyset` from serialized bytes (`prost::Message::decode`),
starting from the prost default. -/
def Keyset.protoDecode (bs : List Nat) : Option Keyset :=
  decodeKeysetLoop bs defaultKeyset

/-- A `KeyData` value representable by the Rust struct: byte-valued vector
elements and an `i32`-ranged enum discriminant. -/
def KeyData.wf (kd : KeyData) : Prop :=
  (∀ b ∈ kd.type_url, b < 256) ∧ (∀ b ∈ kd.value, b < 256) ∧
    -2 ^ 31 ≤ kd.key_material_type ∧ kd.key_material_type < 2 ^ 31

instance (kd : KeyData) : Decidable kd.wf :=
  inferInstanceAs (Decidable (_ ∧ _ ∧ _ ∧ _))

/-- Well-formedness of an optional nested `KeyData`: trivially true when
absent. -/
def keyDataOptWf : Option KeyData → Prop
  | none => True
  | some kd => kd.wf

instance : (o : Option KeyData) → Decidable (keyDataOptWf o)
  | none => isTrue True.intro
  | some kd => inferInstanceAs (Decidable kd.wf)

/-- A `keyset::Key` value representable by the Rust struct: a `u32` key id
and `i32`-ranged enum discriminants, with a well-formed nested `KeyData`
when present. -/
def Keyset.Key.wf (k : Keyset.Key) : Prop :=
  keyDataOptWf k.key_data ∧
  (-2 ^ 31 ≤ k.status ∧ k.status < 2 ^ 31) ∧
  k.key_id < 2 ^ 32 ∧
  (-2 ^ 31 ≤ k.output_prefix_type ∧ k.output_prefix_type < 2 ^ 31)

instance (k : Keyset.Key) : Decidable k.wf :=
  inferInstanceAs (Decidable (_ ∧ _ ∧ _ ∧ _))

/-- A `Keyset` value representable by the Rust struct. -/
def Keyset.wf (ks : Keyset) : Prop :=
  ks.primary_key_id < 2 ^ 32 ∧ ∀ k ∈ ks.key, k.wf

instance (ks : Keyset) : Decidable ks.wf :=
  inferInstanceAs (Decidable (_ ∧ _))

/-- A concrete instance of the abstract underlying cipher, used to
instantiate the interface-boundary parameters on concrete inputs: the
ciphertext is the message followed by a 16-byte all-zero tag. -/
def testCipher : AeadCipher :=
  { enc := fun _ pt _ => some (pt ++ List.replicate AES_GCM_SIV_TAG_SIZE 0)
    dec := fun _ ct _ => some (ct.take (ct.length - AES_GCM_SIV_TAG_SIZE)) }

/-- A concrete injective serializer for `DummyAeadData`, standing in for
`serde_json::to_vec` on concrete inputs: length-prefixed name code points,
then length-prefixed plaintext, then the additional data. -/
def testSer (x : DummyAeadData) : List Nat :=
  [x.name.data.length] ++ x.name.data.map Char.toNat ++
    [x.plaintext.length] ++ x.plaintext ++ x.additional_data

/-- The matching concrete deserializer, standing in for
`serde_json::from_slice` on concrete inputs. -/
def testDeser (bs : List Nat) : Option DummyAeadData :=
  match bs with
  | [] => none
  | nlen :: rest =>
    let nameCodes := rest.take nlen
    let rest2 := rest.drop nlen
    match rest2 with
    | [] => none
    | plen :: rest3 =>
      some { name := String.mk (nameCodes.map Char.ofNat)
             plaintext := rest3.take plen
             additional_data := rest3.drop plen }

/-- A concrete well-formed keyset used to instantiate the serialization
round trip: two entries, one carrying key data and one all-default. -/
def ksConcrete : Keyset :=
  { primary_key_id := 42
    key := [ { key_data := some { type_url := [116, 121], value := [1, 2, 3],
                                  key_material_type := 1 }
               status := 1, key_id := 42, output_prefix_type := 1 }
           , { key_data := none, status := -3, key_id := 0,
               output_prefix_type := 0 } ] }

theorem varintEncode_ne_nil (n : Nat) : varintEncode n ≠ [] := by
  rw [varintEncode]
  split <;> simp

theorem varint_roundtrip (n : Nat) (rest : List Nat) :
    varintDecode (varintEncode n ++ rest) = some (n, rest) := by
  induction n using Nat.strong_induction_on generalizing rest with
  | _ n ih =>
    rw [varintEncode]
    split
    · simp only [List.cons_append, List.nil_append, varintDecode]
      rename_i h
      simp [h]
    · rename_i h
      push_neg at h
      have hb : ¬ (n % 128 + 128 < 128) := by omega
      simp only [List.cons_append, varintDecode, hb, if_false, List.append_eq]
      rw [ih (n / 128) (Nat.div_lt_self (by omega) (by omega)) rest]
      have hn : n / 128 * 128 + (n % 128 + 128) % 128 = n := by
        rw [Nat.add_mod_right]
        omega
      show some (n / 128 * 128 + (n % 128 + 128) % 128, rest) = some (n, rest)
      rw [hn]

theorem i32_roundtrip (v : Int) (h1 : -2 ^ 31 ≤ v) (h2 : v < 2 ^ 31) :
    u64ToI32 (i32ToU64 v) = v := by
  unfold u64ToI32 i32ToU64
  split <;> omega

theorem decodeKeyDataLoop_nil (acc : KeyData) :
    decodeKeyDataLoop [] acc = some acc := by
  rw [decodeKeyDataLoop]
  simp

theorem decodeKeyDataLoop_field1 (tu rest : List Nat) (acc : KeyData) :
    decodeKeyDataLoop (bytesField 1 tu ++ rest) acc =
      decodeKeyDataLoop rest
        { acc with type_url := if tu = [] then acc.type_url else tu } := by
  by_cases h : tu = []
  · subst h
    simp [bytesField]
  · rw [bytesField, if_neg h]
    rw [decodeKeyDataLoop]
    rw [if_neg (by simp [varintEncode_ne_nil])]
    split
    · rename_i heq
      simp only [List.append_assoc] at heq
      rw [varint_roundtrip] at heq
      cases heq
    · rename_i key rest1 heq
      simp only [List.append_assoc] at heq
      rw [varint_roundtrip] at heq
      cases heq
      norm_num
      split
      · rename_i heq2
        rw [varint_roundtrip] at heq2
        cases heq2
      · rename_i len rest2 heq2
        rw [varint_roundtrip] at heq2
        cases heq2
        rw [if_pos (by simp)]
        rw [List.take_left, List.drop_left]
        simp [h]

theorem decodeKeyDataLoop_field2 (val rest : List Nat) (acc : KeyData) :
    decodeKeyDataLoop (bytesField 2 val ++ rest) acc =
      decodeKeyDataLoop rest
        { acc with value := if val = [] then acc.value else val } := by
  by_cases h : val = []
  · subst h
    simp [bytesField]
  · rw [bytesField, if_neg h]
    rw [decodeKeyDataLoop]
    rw [if_neg (by simp [varintEncode_ne_nil])]
    split
    · rename_i heq
      simp only [List.append_assoc] at heq
      rw [varint_roundtrip] at heq
      cases heq
    · rename_i key rest1 heq
      simp only [List.append_assoc] at heq
      rw [varint_roundtrip] at heq
      cases heq
      norm_num
      split
      · rename_i heq2
        rw [varint_roundtrip] at heq2
        cases heq2
      · rename_i len rest2 heq2
        rw [varint_roundtrip] at heq2
        cases heq2
        rw [if_pos (by simp)]
        rw [List.take_left, List.drop_left]
        simp [h]

theorem decodeKeyDataLoop_field3 (v : Int) (rest : List Nat) (acc : KeyData) :
    decodeKeyDataLoop (intField 3 v ++ rest) acc =
      decodeKeyDataLoop rest
        { acc with key_material_type :=
            if v = 0 then acc.key_material_type else u64ToI32 (i32ToU64 v) } := by
  by_cases h : v = 0
  · subst h
    simp [intField]
  · rw [intField, if_neg h]
    rw [decodeKeyDataLoop]
    rw [if_neg (by simp [varintEncode_ne_nil])]
    split
    · rename_i heq
      simp only [List.append_assoc] at heq
      rw [varint_roundtrip] at heq
      cases heq
    · rename_i key rest1 heq
      simp only [List.append_assoc] at heq
      rw [varint_roundtrip] at heq
      cases heq
      norm_num
      split
      · rename_i heq2
        rw [varint_roundtrip] at heq2
        cases heq2
      · rename_i w rest2 heq2
        rw [varint_roundtrip] at heq2
        cases heq2
        simp [h]

theorem decodeKeyDataMsg_roundtrip (kd : KeyData) (h : kd.wf) :
    decodeKeyDataMsg kd.protoEncode = some kd := by
  obtain ⟨tu, val, kmt⟩ := kd
  obtain ⟨-, -, h3, h4⟩ := h
  unfold decodeKeyDataMsg KeyData.protoEncode
  rw [show bytesField 1 tu ++ bytesField 2 val ++ intField 3 kmt =
        bytesField 1 tu ++ (bytesField 2 val ++ (intField 3 kmt ++ [])) by simp]
  rw [decodeKeyDataLoop_field1, decodeKeyDataLoop_field2,
    decodeKeyDataLoop_field3, decodeKeyDataLoop_nil]
  simp only [Option.some.injEq, defaultKeyData, KeyData.mk.injEq]
  refine ⟨?_, ?_, ?_⟩
  · split <;> simp_all
  · split <;> simp_all
  · split
    · simp_all
    · exact i32_roundtrip kmt h3 h4

theorem decodeKeyLoop_nil (acc : Keyset.Key) :
    decodeKeyLoop [] acc = some acc := by
  rw [decodeKeyLoop]
  simp

theorem decodeKeyLoop_msg1 (payload rest : List Nat) (acc : Keyset.Key) :
    decodeKeyLoop (lenDelimField 1 payload ++ rest) acc =
      match decodeKeyDataLoop payload (acc.key_data.getD defaultKeyData) with
      | none => none
      | some kd => decodeKeyLoop rest { acc with key_data := some kd } := by
  rw [lenDelimField]
  rw [decodeKeyLoop]
  rw [if_neg (by simp [varintEncode_ne_nil])]
  split
  · rename_i heq
    simp only [List.append_assoc] at heq
    rw [varint_roundtrip] at heq
    cases heq
  · rename_i key rest1 heq
    simp only [List.append_assoc] at heq
    rw [varint_roundtrip] at heq
    cases heq
    norm_num
    split
    · rename_i heq2
      rw [varint_roundtrip] at heq2
      cases heq2
    · rename_i len rest2 heq2
      rw [varint_roundtrip] at heq2
      cases heq2
      rw [if_pos (by simp)]
      rw [List.take_left, List.drop_left]

theorem decodeKeyLoop_int2 (v : Int) (rest : List Nat) (acc : Keyset.Key) :
    decodeKeyLoop (intField 2 v ++ rest) acc =
      decodeKeyLoop rest
        { acc with status := if v = 0 then acc.status else u64ToI32 (i32ToU64 v) } := by
  by_cases h : v = 0
  · subst h
    simp [intField]
  · rw [intField, if_neg h]
    rw [decodeKeyLoop]
    rw [if_neg (by simp [varintEncode_ne_nil])]
    split
    · rename_i heq
      simp only [List.append_assoc] at heq
      rw [varint_roundtrip] at heq
      cases heq
    · rename_i key rest1 heq
      simp only [List.append_assoc] at heq
      rw [varint_roundtrip] at heq
      cases heq
      norm_num
      split
      · rename_i heq2
        rw [varint_roundtrip] at heq2
        cases heq2
      · rename_i w rest2 heq2
        rw [varint_roundtrip] at heq2
        cases heq2
        simp [h]

theorem decodeKeyLoop_nat3 (v : Nat) (rest : List Nat) (acc : Keyset.Key) :
    decodeKeyLoop (natField 3 v ++ rest) acc =
      decodeKeyLoop rest
        { acc with key_id := if v = 0 then acc.key_id else v % 2 ^ 32 } := by
  by_cases h : v = 0
  · subst h
    simp [natField]
  · rw [natField, if_neg h]
    rw [decodeKeyLoop]
    rw [if_neg (by simp [varintEncode_ne_nil])]
    split
    · rename_i heq
      simp only [List.append_assoc] at heq
      rw [varint_roundtrip] at heq
      cases heq
    · rename_i key rest1 heq
      simp only [List.append_assoc] at heq
      rw [varint_roundtrip] at heq
      cases heq
      norm_num
      split
      · rename_i heq2
        rw [varint_roundtrip] at heq2
        cases heq2
      · rename_i w rest2 heq2
        rw [varint_roundtrip] at heq2
        cases heq2
        simp [h]

theorem decodeKeyLoop_int4 (v : Int) (rest : List Nat) (acc : Keyset.Key) :
    decodeKeyLoop (intField 4 v ++ rest) acc =
      decodeKeyLoop rest
        { acc with output_prefix_type :=
            if v = 0 then acc.output_prefix_type else u64ToI32 (i32ToU64 v) } := by
  by_cases h : v = 0
  · subst h
    simp [intField]
  · rw [intField, if_neg h]
    rw [decodeKeyLoop]
    rw [if_neg (by simp [varintEncode_ne_nil])]
    split
    · rename_i heq
      simp only [List.append_assoc] at heq
      rw [varint_roundtrip] at heq
      cases heq
    · rename_i key rest1 heq
      simp only [List.append_assoc] at heq
      rw [varint_roundtrip] at heq
      cases heq
      norm_num
      split
      · rename_i heq2
        rw [varint_roundtrip] at heq2
        cases heq2
      · rename_i w rest2 heq2
        rw [varint_roundtrip] at heq2
        cases heq2
        simp [h]

theorem decodeKeyMsg_roundtrip (k : Keyset.Key) (h : k.wf) :
    decodeKeyMsg k.protoEncode = some k := by
  obtain ⟨okd, st, kid, opt⟩ := k
  obtain ⟨hkd, ⟨hs1, hs2⟩, hkid, ho1, ho2⟩ := h
  unfold decodeKeyMsg Keyset.Key.protoEncode
  cases okd with
  | none =>
    simp only
    rw [show ([] : List Nat) ++ intField 2 st ++ natField 3 kid ++ intField 4 opt =
          intField 2 st ++ (natField 3 kid ++ (intField 4 opt ++ [])) by simp]
    rw [decodeKeyLoop_int2, decodeKeyLoop_nat3, decodeKeyLoop_int4, decodeKeyLoop_nil]
    simp only [Option.some.injEq, defaultKey, Keyset.Key.mk.injEq]
    refine ⟨by trivial, ?_, ?_, ?_⟩
    · split
      · simp_all
      · exact i32_roundtrip st hs1 hs2
    · split
      · simp_all
      · exact Nat.mod_eq_of_lt hkid
    · split
      · simp_all
      · exact i32_roundtrip opt ho1 ho2
  | some kd =>
    simp only
    rw [show lenDelimField 1 kd.protoEncode ++ intField 2 st ++ natField 3 kid ++ intField 4 opt =
          lenDelimField 1 kd.protoEncode ++
            (intField 2 st ++ (natField 3 kid ++ (intField 4 opt ++ []))) by simp]
    rw [decodeKeyLoop_msg1]
    have hkd2 : decodeKeyDataLoop kd.protoEncode defaultKeyData = some kd :=
      decodeKeyDataMsg_roundtrip kd (by simpa [keyDataOptWf] using hkd)
    simp only [Option.getD_none, defaultKey]
    rw [hkd2]
    show decodeKeyLoop (intField 2 st ++ (natField 3 kid ++ (intField 4 opt ++ [])))
        { key_data := some kd, status := 0, key_id := 0, output_prefix_type := 0 } =
      some { key_data := some kd, status := st, key_id := kid, output_prefix_type := opt }
    rw [decodeKeyLoop_int2, decodeKeyLoop_nat3, decodeKeyLoop_int4, decodeKeyLoop_nil]
    simp only [Option.some.injEq, Keyset.Key.mk.injEq]
    refine ⟨by trivial, ?_, ?_, ?_⟩
    · split
      · simp_all
      · exact i32_roundtrip st hs1 hs2
    · split
      · simp_all
      · exact Nat.mod_eq_of_lt hkid
    · split
      · simp_all
      · exact i32_roundtrip opt ho1 ho2

theorem decodeKeysetLoop_nil (acc : Keyset) :
    decodeKeysetLoop [] acc = some acc := by
  rw [decodeKeysetLoop]
  simp

theorem decodeKeysetLoop_nat1 (v : Nat) (rest : List Nat) (acc : Keyset) :
    decodeKeysetLoop (natField 1 v ++ rest) acc =
      decodeKeysetLoop rest
        { acc with primary_key_id := if v = 0 then acc.primary_key_id else v % 2 ^ 32 } := by
  by_cases h : v = 0
  · subst h
    simp [natField]
  · rw [natField, if_neg h]
    rw [decodeKeysetLoop]
    rw [if_neg (by simp [varintEncode_ne_nil])]
    split
    · rename_i heq
      simp only [List.append_assoc] at heq
      rw [varint_roundtrip] at heq
      cases heq
    · rename_i key rest1 heq
      simp only [List.append_assoc] at heq
      rw [varint_roundtrip] at heq
      cases heq
      norm_num
      split
      · rename_i heq2
        rw [varint_roundtrip] at heq2
        cases heq2
      · rename_i w rest2 heq2
        rw [varint_roundtrip] at heq2
        cases heq2
        simp [h]

theorem decodeKeysetLoop_msg2 (payload rest : List Nat) (acc : Keyset) :
    decodeKeysetLoop (lenDelimField 2 payload ++ rest) acc =
      match decodeKeyMsg payload with
      | none => none
      | some k => decodeKeysetLoop rest { acc with key := acc.key ++ [k] } := by
  rw [lenDelimField]
  rw [decodeKeysetLoop]
  rw [if_neg (by simp [varintEncode_ne_nil])]
  split
  · rename_i heq
    simp only [List.append_assoc] at heq
    rw [varint_roundtrip] at heq
    cases heq
  · rename_i key rest1 heq
    simp only [List.append_assoc] at heq
    rw [varint_roundtrip] at heq
    cases heq
    norm_num
    split
    · rename_i heq2
      rw [varint_roundtrip] at heq2
      cases heq2
    · rename_i len rest2 heq2
      rw [varint_roundtrip] at heq2
      cases heq2
      rw [if_pos (by simp)]
      rw [List.take_left, List.drop_left]

theorem decodeKeysetLoop_list (keys : List Keyset.Key) (acc : Keyset)
    (h : ∀ k ∈ keys, k.wf) :
    decodeKeysetLoop ((keys.map (fun k => lenDelimField 2 k.protoEncode)).flatten) acc =
      some { acc with key := acc.key ++ keys } := by
  induction keys generalizing acc with
  | nil =>
    simp only [List.map_nil, List.flatten_nil, List.append_nil]
    exact decodeKeysetLoop_nil acc
  | cons a l ih =>
    simp only [List.map_cons, List.flatten_cons]
    rw [decodeKeysetLoop_msg2]
    rw [decodeKeyMsg_roundtrip a (h a (by simp))]
    show decodeKeysetLoop ((l.map (fun k => lenDelimField 2 k.protoEncode)).flatten)
        { acc with key := acc.key ++ [a] } = _
    rw [ih _ (fun k hk => h k (by simp [hk]))]
    simp


/-- C4: `AesGcmSiv::new(key)` returns `Ok` selecting AES-128 for every
16-byte key and AES-256 for every 32-byte key, and returns an error for
every key of any other length. -/
theorem aes_gcm_siv_new_key_length (key : List Nat) :
    (key.length = 16 → AesGcmSiv.new key = .ok (.Aes128 key)) ∧
    (key.length = 32 → AesGcmSiv.new key = .ok (.Aes256 key)) ∧
    (key.length ≠ 16 → key.length ≠ 32 →
      AesGcmSiv.new key =
        .error s!"AesGcmSiv: invalid AES key size {key.length} (want 16, 32)") := by
  refine ⟨fun h => ?_, fun h => ?_, fun h1 h2 => ?_⟩ <;> unfold AesGcmSiv.new
  · rw [h]
  · rw [h]
  · split
    · simp_all
    · simp_all
    · rfl

/-- C4 witness: the three cases of `aes_gcm_siv_new_key_length` instantiated
at concrete keys of lengths 16, 32 and 1. -/
theorem aes_gcm_siv_new_key_length_witness :
    AesGcmSiv.new (List.replicate 16 0) = .ok (.Aes128 (List.replicate 16 0)) ∧
    AesGcmSiv.new (List.replicate 32 0) = .ok (.Aes256 (List.replicate 32 0)) ∧
    AesGcmSiv.new [7] = .error "AesGcmSiv: invalid AES key size 1 (want 16, 32)" :=
  ⟨(aes_gcm_siv_new_key_length (List.replicate 16 0)).1 (by decide),
   (aes_gcm_siv_new_key_length (List.replicate 32 0)).2.1 (by decide),
   (aes_gcm_siv_new_key_length [7]).2.2 (by decide) (by decide)⟩

/-- C5: `AesGcmSiv::decrypt` rejects every ciphertext shorter than 28 bytes
(12-byte nonce plus 16-byte tag) with the "ciphertext too short" error,
for every associated data and every underlying cipher; in particular every
truncation of any byte string to fewer than 28 bytes is rejected. -/
theorem aes_gcm_siv_decrypt_short_ciphertext (c : AeadCipher)
    (ct aad : List Nat) (h : ct.length < 28) :
    AesGcmSiv.decrypt c ct aad =
      some (.error "AesGcmSiv: ciphertext too short") ∧
    ∀ full : List Nat, ∀ n : Nat, n < 28 →
      AesGcmSiv.decrypt c (full.take n) aad =
        some (.error "AesGcmSiv: ciphertext too short") := by
  constructor
  · unfold AesGcmSiv.decrypt
    rw [if_pos (by unfold AES_GCM_SIV_NONCE_SIZE AES_GCM_SIV_TAG_SIZE; omega)]
  · intro full n hn
    unfold AesGcmSiv.decrypt
    have : (full.take n).length < 28 := by
      have := List.length_take_le n full
      omega
    rw [if_pos (by unfold AES_GCM_SIV_NONCE_SIZE AES_GCM_SIV_TAG_SIZE; omega)]

/-- C5 witness: `aes_gcm_siv_decrypt_short_ciphertext` at a concrete
27-byte ciphertext. -/
theorem aes_gcm_siv_decrypt_short_ciphertext_witness :
    AesGcmSiv.decrypt testCipher (List.replicate 27 1) [] =
      some (.error "AesGcmSiv: ciphertext too short") :=
  (aes_gcm_siv_decrypt_short_ciphertext testCipher (List.replicate 27 1) []
    (by decide)).1

/-- C8: `AesGcmSiv::decrypt` is total — for every underlying cipher,
ciphertext and associated data it produces a `Result` and never panics:
the nonce-boundary slicing (modelled as panicking slices returning `none`
when out of bounds) is only reached after the length check guarantees the
indices are in bounds. -/
theorem aes_gcm_siv_decrypt_total (c : AeadCipher) (ct aad : List Nat) :
    (AesGcmSiv.decrypt c ct aad).isSome = true := by
  unfold AesGcmSiv.decrypt
  split
  · simp
  · split
    · simp
    · split
      · simp
      · rename_i hshort _ _
        have h12 : AES_GCM_SIV_NONCE_SIZE ≤ ct.length := by
          unfold AES_GCM_SIV_NONCE_SIZE AES_GCM_SIV_TAG_SIZE at hshort
          unfold AES_GCM_SIV_NONCE_SIZE
          omega
        rw [sliceTo, sliceFrom, if_pos h12, if_pos h12]
        cases hd : c.dec (ct.take AES_GCM_SIV_NONCE_SIZE)
            (ct.drop AES_GCM_SIV_NONCE_SIZE) aad <;> simp [hd]

/-- C1: for every underlying AES-GCM-SIV cipher (any key length the
implementation accepts), every plaintext with `pt.len() <= isize::MAX - 28`
and every associated data with `aad.len() <= isize::MAX`, decrypting the
output of encryption (with the random IV modelled as an oracle input, and
the external cipher assumed to round-trip and to produce a
message-plus-16-byte-tag ciphertext) returns `Ok(pt)`. -/
theorem aes_gcm_siv_encrypt_decrypt_roundtrip (c : AeadCipher)
    (iv pt aad ct0 : List Nat)
    (hiv : iv.length = AES_GCM_SIV_NONCE_SIZE)
    (henc : c.enc iv pt aad = some ct0)
    (hlen : ct0.length = pt.length + AES_GCM_SIV_TAG_SIZE)
    (hdec : c.dec iv ct0 aad = some pt)
    (hpt : pt.length ≤ isizeMax - 28)
    (haad : aad.length ≤ isizeMax) :
    AesGcmSiv.encrypt c iv pt aad = .ok (iv ++ ct0) ∧
    AesGcmSiv.decrypt c (iv ++ ct0) aad = some (.ok pt) := by
  have hmax : (28 : Nat) ≤ isizeMax := by unfold isizeMax; norm_num
  constructor
  · unfold AesGcmSiv.encrypt
    rw [if_neg (by
      unfold AES_GCM_SIV_NONCE_SIZE AES_GCM_SIV_TAG_SIZE
      omega)]
    rw [if_neg (by omega)]
    rw [henc]
  · unfold AesGcmSiv.decrypt
    have hl : (iv ++ ct0).length = pt.length + 28 := by
      rw [List.length_append, hiv, hlen]
      unfold AES_GCM_SIV_NONCE_SIZE AES_GCM_SIV_TAG_SIZE
      omega
    rw [if_neg (by
      rw [hl]
      unfold AES_GCM_SIV_NONCE_SIZE AES_GCM_SIV_TAG_SIZE
      omega)]
    rw [if_neg (by rw [hl]; omega)]
    rw [if_neg (by omega)]
    have htake : sliceTo (iv ++ ct0) AES_GCM_SIV_NONCE_SIZE = some iv := by
      rw [sliceTo, if_pos (by unfold AES_GCM_SIV_NONCE_SIZE; omega)]
      rw [← hiv, List.take_left]
    have hdrop : sliceFrom (iv ++ ct0) AES_GCM_SIV_NONCE_SIZE = some ct0 := by
      rw [sliceFrom, if_pos (by unfold AES_GCM_SIV_NONCE_SIZE; omega)]
      rw [← hiv, List.drop_left]
    simp [htake, hdrop, hdec]

/-- C1 witness: the round trip instantiated with a concrete cipher, IV,
plaintext and associated data. -/
theorem aes_gcm_siv_encrypt_decrypt_roundtrip_witness :
    AesGcmSiv.encrypt testCipher (List.replicate 12 0) [1, 2, 3] [9] =
      .ok (List.replicate 12 0 ++ ([1, 2, 3] ++ List.replicate 16 0)) ∧
    AesGcmSiv.decrypt testCipher
        (List.replicate 12 0 ++ ([1, 2, 3] ++ List.replicate 16 0)) [9] =
      some (.ok [1, 2, 3]) :=
  aes_gcm_siv_encrypt_decrypt_roundtrip testCipher (List.replicate 12 0)
    [1, 2, 3] [9] ([1, 2, 3] ++ List.replicate 16 0)
    (by decide) (by rfl) (by decide) (by rfl) (by decide) (by decide)

/-- C3 counterexample: `DummyMac::verify_mac` succeeds on a corrupted tag.
With name bytes `[110]` ("n") and data `[5]`, `compute_mac` produces the tag
`[5, 110]`; the single-bit-flip mutation `[4, 110]` is among
`generate_mutations` of that tag and differs from it, yet `verify_mac`
returns `Ok(())` on it instead of an error. -/
theorem dummy_mac_verify_accepts_corrupted_tag :
    DummyMac.compute_mac ⟨[110]⟩ [5] = .ok [5, 110] ∧
    [4, 110] ∈ generate_mutations [5, 110] ∧
    [4, 110] ≠ [5, 110] ∧
    DummyMac.verify_mac ⟨[110]⟩ [4, 110] [5] = .ok () := by
  refine ⟨rfl, ?_, by decide, rfl⟩
  decide

/-- C3 amended: `DummyMac::verify_mac` performs no verification at all — it
returns `Ok(())` for every mac and every data (in particular for every
corruption of a tag produced by `compute_mac`), and never returns an
error. -/
theorem dummy_mac_verify_always_ok (m : DummyMac) (mac data : List Nat) :
    DummyMac.verify_mac m mac data = .ok () :=
  rfl

/-- The length of flat-mapping a constant-length generator over `range n`. -/
theorem length_flatMap_range {α : Type} (g : Nat → List α) (c : Nat)
    (hg : ∀ i, (g i).length = c) (n : Nat) :
    ((List.range n).flatMap g).length = c * n := by
  induction n with
  | zero => simp
  | succ n ih =>
    rw [List.range_succ, List.flatMap_append]
    simp [ih, hg]
    ring

/-- C9: for a non-empty input of length `n`, `generate_mutations` returns
exactly `9 * n` mutations; it contains every single-bit flip, the drops of
the first `i` bytes for `1 ≤ i < n` (leading bytes, not trailing), and the
input with one `0x00` byte appended; and every returned mutation differs
from the input. -/
theorem generate_mutations_spec (src : List Nat) (h : src ≠ []) :
    (generate_mutations src).length = 9 * src.length ∧
    (∀ m ∈ generate_mutations src, m ≠ src) ∧
    (∀ i, i < src.length → ∀ j, j < 8 →
      src.set i (src.getD i 0 ^^^ (1 <<< j)) ∈ generate_mutations src) ∧
    (∀ i, 1 ≤ i → i < src.length → src.drop i ∈ generate_mutations src) ∧
    src ++ [0] ∈ generate_mutations src := by
  have hlen : src.length ≠ 0 := fun hc => h (List.length_eq_zero.mp hc)
  refine ⟨?_, ?_, ?_, ?_, ?_⟩
  · unfold generate_mutations
    simp only [List.length_append, List.length_map, List.length_range',
      List.length_cons, List.length_nil]
    rw [length_flatMap_range _ 8 (fun i => by simp) src.length]
    omega
  · intro m hm
    unfold generate_mutations at hm
    simp only [List.mem_append, List.mem_flatMap, List.mem_map,
      List.mem_range, List.mem_range'_1, List.mem_singleton] at hm
    rcases hm with ((⟨i, hi, j, hj, rfl⟩ | ⟨i, ⟨hi1, hi2⟩, rfl⟩) | rfl)
    · intro heq
      have hv : (src.set i (src.getD i 0 ^^^ (1 <<< j))).getD i 0 =
          src.getD i 0 ^^^ (1 <<< j) := by
        rw [List.getD_eq_getElem _ _ (by simpa using hi)]
        simp [List.getElem_set_self]
      rw [heq] at hv
      have hz : (1 <<< j) = 0 := by
        calc (1 <<< j)
            = src.getD i 0 ^^^ (src.getD i 0 ^^^ 1 <<< j) :=
              (Nat.xor_cancel_left _ _).symm
          _ = src.getD i 0 ^^^ src.getD i 0 := by rw [← hv]
          _ = 0 := Nat.xor_self _
      simp [Nat.shiftLeft_eq] at hz
    · intro heq
      have hlen2 := congrArg List.length heq
      simp only [List.length_drop] at hlen2
      omega
    · intro heq
      have hlen2 := congrArg List.length heq
      simp at hlen2
  · intro i hi j hj
    unfold generate_mutations
    simp only [List.mem_append, List.mem_flatMap, List.mem_map, List.mem_range]
    exact Or.inl (Or.inl ⟨i, hi, j, hj, rfl⟩)
  · intro i h1 h2
    unfold generate_mutations
    simp only [List.mem_append, List.mem_map, List.mem_range'_1]
    exact Or.inl (Or.inr ⟨i, ⟨h1, by omega⟩, rfl⟩)
  · unfold generate_mutations
    simp

/-- C9 witness: `generate_mutations_spec` at the one-byte input `[5]`. -/
theorem generate_mutations_spec_witness :
    (generate_mutations [5]).length = 9 * [5].length ∧
    [5] ++ [0] ∈ generate_mutations [5] :=
  ⟨(generate_mutations_spec [5] (by decide)).1,
   (generate_mutations_spec [5] (by decide)).2.2.2.2⟩

/-- `dummySignerName` is injective: distinct signer names give distinct
stored `DummyAead` names. -/
theorem dummySignerName_injective (a b : String)
    (h : dummySignerName a = dummySignerName b) : a = b := by
  unfold dummySignerName at h
  have hd := congrArg String.data h
  rw [String.data_append, String.data_append] at hd
  exact String.ext (List.append_cancel_left hd)

/-- C7: for every (abstract, round-tripping) serializer pair, every name and
every data, a `DummyVerifier` with the same name accepts a `DummySigner`'s
signature; a verifier with a different name rejects it, as does verification
of the same signature against different data. -/
theorem dummy_signer_verifier_pairing (ser : DummyAeadData → List Nat)
    (deser : List Nat → Option DummyAeadData) (n n1 n2 : String)
    (d d' : List Nat)
    (h1 : deser (ser ⟨dummySignerName n, [], d⟩) =
      some ⟨dummySignerName n, [], d⟩)
    (h2 : deser (ser ⟨dummySignerName n1, [], d⟩) =
      some ⟨dummySignerName n1, [], d⟩) :
    (DummyVerifier.verify deser n (DummySigner.sign ser n d) d = .ok ()) ∧
    (n1 ≠ n2 →
      DummyVerifier.verify deser n2 (DummySigner.sign ser n1 d) d =
        .error "dummy aead encrypt: name/additional data mismatch") ∧
    (d ≠ d' →
      DummyVerifier.verify deser n (DummySigner.sign ser n d) d' =
        .error "dummy aead encrypt: name/additional data mismatch") := by
  refine ⟨?_, fun hne => ?_, fun hne => ?_⟩
  · unfold DummyVerifier.verify DummySigner.sign DummyAead.encrypt
      DummyAead.decrypt
    rw [h1]
    simp
    rfl
  · unfold DummyVerifier.verify DummySigner.sign DummyAead.encrypt
      DummyAead.decrypt
    rw [h2]
    have : dummySignerName n1 ≠ dummySignerName n2 :=
      fun hc => hne (dummySignerName_injective n1 n2 hc)
    simp [this]
    rfl
  · unfold DummyVerifier.verify DummySigner.sign DummyAead.encrypt
      DummyAead.decrypt
    rw [h1]
    simp [hne]
    rfl

/-- C7 witness: the pairing properties instantiated with the concrete
serializer pair, names "a" / "b" and data `[7]` / `[8]`. -/
theorem dummy_signer_verifier_pairing_witness :
    (DummyVerifier.verify testDeser "a" (DummySigner.sign testSer "a" [7]) [7] =
      .ok ()) ∧
    (DummyVerifier.verify testDeser "b" (DummySigner.sign testSer "a" [7]) [7] =
      .error "dummy aead encrypt: name/additional data mismatch") ∧
    (DummyVerifier.verify testDeser "a" (DummySigner.sign testSer "a" [7]) [8] =
      .error "dummy aead encrypt: name/additional data mismatch") := by
  have h := dummy_signer_verifier_pairing testSer testDeser "a" "a" "b" [7] [8]
    (by rfl) (by rfl)
  exact ⟨h.1, h.2.1 (by decide), h.2.2 (by decide)⟩

/-- C2: every produced output is `prefix ++ payload`: the prefix is empty
for Raw; `0x01` plus the big-endian 4-byte key id for Tink; `0x00` plus the
big-endian 4-byte key id for Legacy and Crunchy (5 bytes each); and for
Legacy one `0x00` byte is appended to the data handed to the underlying
primitive.  The big-endian bytes reassemble to the key id. -/
theorem output_prefix_protocol (prim : List Nat → List Nat) (kid : Nat)
    (data : List Nat) (h : kid < 2 ^ 32) :
    produceOutput prim .Raw kid data = some (prim data) ∧
    produceOutput prim .Tink kid data =
      some ([1] ++ beBytes4 kid ++ prim data) ∧
    produceOutput prim .Legacy kid data =
      some ([0] ++ beBytes4 kid ++ prim (data ++ [0])) ∧
    produceOutput prim .Crunchy kid data =
      some ([0] ++ beBytes4 kid ++ prim data) ∧
    (beBytes4 kid).length = 4 ∧
    (beBytes4 kid).foldl (fun a b => a * 256 + b) 0 = kid := by
  refine ⟨rfl, ?_, ?_, ?_, rfl, ?_⟩
  · simp [produceOutput, wirePrefixBytes]
  · simp [produceOutput, wirePrefixBytes]
  · simp [produceOutput, wirePrefixBytes]
  · unfold beBytes4
    simp only [List.foldl_cons, List.foldl_nil]
    omega

/-- C2 witness: the output-prefix protocol instantiated at key id 42, the
identity primitive and data `[9]`. -/
theorem output_prefix_protocol_witness :
    produceOutput id .Tink 42 [9] = some ([1] ++ beBytes4 42 ++ [9]) ∧
    produceOutput id .Legacy 42 [9] = some ([0] ++ beBytes4 42 ++ [9, 0]) ∧
    (beBytes4 42).foldl (fun a b => a * 256 + b) 0 = 42 := by
  have h := output_prefix_protocol id 42 [9] (by decide)
  exact ⟨h.2.1, h.2.2.1, h.2.2.2.2.2⟩

/-- C10: for every key-data generator and every primary output prefix type,
`new_test_keyset` returns a keyset with exactly five entries whose key ids
42–46 are distinct, all entries Enabled, `primary_key_id = 42` referencing
an existing Enabled entry that carries the requested prefix type, and the
remaining entries carrying Raw, Legacy, Tink, Crunchy in that order. -/
theorem new_test_keyset_invariants (kdg : Nat → KeyData)
    (p : OutputPrefixType) :
    (new_test_keyset kdg p).key.length = 5 ∧
    (new_test_keyset kdg p).key.map (fun k => k.key_id) =
      [42, 43, 44, 45, 46] ∧
    ((new_test_keyset kdg p).key.map (fun k => k.key_id)).Nodup ∧
    (∀ k ∈ (new_test_keyset kdg p).key,
      k.status = KeyStatusType.Enabled.toI32) ∧
    (new_test_keyset kdg p).primary_key_id = 42 ∧
    (∃ k ∈ (new_test_keyset kdg p).key,
      k.key_id = (new_test_keyset kdg p).primary_key_id ∧
      k.status = KeyStatusType.Enabled.toI32 ∧
      k.output_prefix_type = p.toI32) ∧
    ((new_test_keyset kdg p).key.drop 1).map
        (fun k => k.output_prefix_type) =
      [OutputPrefixType.Raw.toI32, OutputPrefixType.Legacy.toI32,
        OutputPrefixType.Tink.toI32, OutputPrefixType.Crunchy.toI32] := by
  refine ⟨rfl, rfl, ?_, ?_, rfl, ?_, rfl⟩
  · have e : (new_test_keyset kdg p).key.map (fun k => k.key_id) =
        [42, 43, 44, 45, 46] := rfl
    rw [e]
    decide
  · intro k hk
    unfold new_test_keyset new_keyset new_key at hk
    simp only [List.mem_cons, List.not_mem_nil, or_false] at hk
    rcases hk with rfl | rfl | rfl | rfl | rfl <;> rfl
  · refine ⟨new_key (kdg 0) .Enabled 42 p, ?_, rfl, rfl, rfl⟩
    unfold new_test_keyset new_keyset
    simp

/-- C6: for every representable `Keyset` value — any `primary_key_id` and
any list of entries with their `key_data`, `status`, `key_id` and
`output_prefix_type` fields — decoding the protobuf encoding produced by
`proto_encode` yields a `Keyset` equal to the original: all entry fields
and `primary_key_id` round-trip exactly through serialization. -/
theorem keyset_proto_roundtrip (ks : Keyset) (h : ks.wf) :
    Keyset.protoDecode ks.protoEncode = some ks := by
  obtain ⟨pk, keys⟩ := ks
  obtain ⟨h1, h2⟩ := h
  unfold Keyset.protoDecode Keyset.protoEncode
  rw [decodeKeysetLoop_nat1]
  rw [decodeKeysetLoop_list keys _ h2]
  simp only [defaultKeyset, Option.some.injEq, Keyset.mk.injEq,
    List.nil_append]
  refine ⟨?_, by trivial⟩
  split
  · simp_all
  · exact Nat.mod_eq_of_lt h1

/-- C6 witness: the serialization round trip at a concrete two-entry
keyset (one entry with key data, one all-default with a negative status
discriminant). -/
theorem keyset_proto_roundtrip_witness :
    Keyset.wf ksConcrete ∧
    Keyset.protoDecode ksConcrete.protoEncode = some ksConcrete :=
  ⟨by decide, keyset_proto_roundtrip ksConcrete (by decide)⟩
